import Mathlib

/-!
# go-rambo: a prevalent-system layer (`rambo.go`)

A shallow embedding of `rambo.go` and of the sample application of its test suite
(`rambo_support_test.go`), followed by theorems about `Load`, `Transact`, `Query`,
`QueryFn` and `restoreSystem`.

Modelling conventions.

* A Go `*System` that a function mutates is passed and returned by value.
* A Go `error` is an `Option Error`; `nil` is `none`.
* The operating system is an explicit `FileSystem` value: directory entries map a path to
  an inode, an inode holds the file content, an open file is an inode with an offset.
  `os.Rename` moves a directory entry and leaves open files attached to their inode.
* The failures the operating system or the encoder may report are inputs of each call
  (`Faults` for `Load`, one `Option Error` for `Transact`).
* `encoding/gob` is a parameter, `Codec`: what it writes for a value and what it reads
  from a stream. The unit of file content, `B`, is a parameter as well.
* The `for` loop of `restoreSystem` runs on fuel; `none` stands for a loop that never ends.
* `sync.Mutex` is not modelled: every call is one atomic step.
-/

namespace GoRambo

/-! ## Errors -/

/-- The error values `rambo.go` tells apart (`io.EOF`, `os.ErrNotExist`), the error gob
reports for a stream that ends inside a record, and any other error. -/
inductive Error where
  | EOF
  | ErrUnexpectedEOF
  | ErrNotExist
  | other (msg : String)
  deriving DecidableEq, Repr

/-! ## Operating system -/

/-- An open file (`*os.File`): the inode it is attached to and its read/write offset. -/
structure File where
  ino : Nat
  off : Nat
  deriving DecidableEq, Repr

/-- The files of the machine: directory entries, inode contents, next free inode. -/
structure FileSystem (B : Type) where
  names : String → Option Nat
  data : Nat → List B
  next : Nat

/-- The content of the file at `path`, when there is one. -/
def FileSystem.content {B : Type} (fs : FileSystem B) (path : String) : Option (List B) :=
  (fs.names path).map fs.data

/-- What remains to be read from an open file: its content from the offset on. -/
def FileSystem.read {B : Type} (fs : FileSystem B) (file : File) : List B :=
  (fs.data file.ino).drop file.off

/-- The first `off` bytes of a file as a reader sees them: a gap past the end of the
content reads as `default`. -/
def readUpTo {B : Type} [Inhabited B] (content : List B) (off : Nat) : List B :=
  content.take off ++ List.replicate (off - content.length) default

/-- Writing `bytes` at offset `off` into `old`: what stands before the offset stays, then
come the bytes, and what stood after the written range stays. -/
def writeAt {B : Type} [Inhabited B] (old : List B) (off : Nat) (bytes : List B) : List B :=
  readUpTo old off ++ bytes ++ old.drop (off + bytes.length)

/-- The call `file.Write(bytes)`: the bytes go to the inode at the offset of the file,
which then advances. A failed write is modelled as writing nothing. -/
def FileSystem.write {B : Type} [Inhabited B] (fault : Option Error) (fs : FileSystem B)
    (file : File) (bytes : List B) : Option Error × FileSystem B × File :=
  match fault with
  | some err => (some err, fs, file)
  | none =>
    (none,
     { fs with data := fun i => if i = file.ino then writeAt (fs.data i) file.off bytes
                                else fs.data i },
     { file with off := file.off + bytes.length })

/-- The call `os.Stat(path)`, reduced to its error: `os.ErrNotExist` when no file has
that name. -/
def Stat {B : Type} (fault : Option Error) (fs : FileSystem B) (path : String) :
    Option Error :=
  match fault with
  | some err => some err
  | none => if (fs.names path).isSome then none else some Error.ErrNotExist

/-- The call `os.OpenFile(path, os.O_RDWR|os.O_CREATE, 0666)`: an existing file is opened
at offset 0 with its content untouched (there is no `O_TRUNC`); a missing file is created
empty. -/
def OpenFile {B : Type} (fault : Option Error) (fs : FileSystem B) (path : String) :
    Except Error File × FileSystem B :=
  match fault with
  | some err => (.error err, fs)
  | none =>
    match fs.names path with
    | some ino => (.ok { ino := ino, off := 0 }, fs)
    | none =>
      (.ok { ino := fs.next, off := 0 },
       { names := fun p => if p = path then some fs.next else fs.names p,
         data := fun i => if i = fs.next then [] else fs.data i,
         next := fs.next + 1 })

/-- The call `os.Rename(oldpath, newpath)`: the entry `newpath` now names the inode of
`oldpath`, and `oldpath` is gone. -/
def Rename {B : Type} (fault : Option Error) (fs : FileSystem B) (oldpath newpath : String) :
    Option Error × FileSystem B :=
  match fault with
  | some err => (some err, fs)
  | none =>
    match fs.names oldpath with
    | none => (some Error.ErrNotExist, fs)
    | some ino =>
      (none,
       { fs with names := fun p => if p = newpath then some ino
                                   else if p = oldpath then none else fs.names p })

/-- Lines 156-163, `openFile`: `os.MkdirAll` on the directory of the path (only its
failure is modelled), then `os.OpenFile`. -/
def openFile {B : Type} (mkdirAll open_ : Option Error) (fs : FileSystem B) (path : String) :
    Except Error File × FileSystem B :=
  match mkdirAll with
  | some err => (.error err, fs)
  | none => OpenFile open_ fs path

/-! ## gob -/

/-- The part of `encoding/gob` that `rambo.go` uses. `decodeSystem` receives the value the
destination pointer points to, as `decoder.Decode(&system)` does; `decodeCommand` decodes
into a fresh interface variable. A decoder returns the value and the unread input. -/
structure Codec (System Cmd B : Type) where
  encodeSystem : System → List B
  encodeCommand : Cmd → List B
  decodeSystem : System → List B → Except Error (System × List B)
  decodeCommand : List B → Except Error (Cmd × List B)

/-- A `*gob.Encoder`: the file it writes to. -/
structure Encoder where
  w : File
  deriving DecidableEq, Repr

/-- The call `gob.NewEncoder(file)`. -/
def NewEncoder (file : File) : Encoder := { w := file }

/-- The call `encoder.Encode(v)`, given the bytes gob produces for `v`: one write to the file.
`fault` is the error of the call, whatever its cause (encoding or writing). -/
def Encoder.Encode {B : Type} [Inhabited B] (encoder : Encoder) (fault : Option Error)
    (fs : FileSystem B) (bytes : List B) : Option Error × FileSystem B × Encoder :=
  match fs.write fault encoder.w bytes with
  | (err, fs1, file) => (err, fs1, { w := file })

/-! ## rambo.go -/

/-- Lines 22-26: the handle. The mutex is left out (calls are atomic steps). -/
structure Rambo (System : Type) where
  system : System
  encoder : Encoder

/-- Lines 140-151, the `for` loop of `restoreSystem`: decode a command, stop on `io.EOF`,
fail on any other error, otherwise execute the command and drop its error. -/
def replay {System Cmd B : Type} (codec : Codec System Cmd B)
    (ExecuteOn : Cmd → System → System × Option Error) :
    Nat → System → List B → Option (Except Error System)
  | 0, _, _ => none
  | fuel + 1, system, input =>
    match codec.decodeCommand input with
    | .error err => if err = Error.EOF then some (.ok system) else some (.error err)
    | .ok (command, rest) => replay codec ExecuteOn fuel (ExecuteOn command system).1 rest

/-- Lines 129-154, `restoreSystem`: decode the snapshot into `system`; on `io.EOF` return
`system` as it is; then replay the journal. -/
def restoreSystem {System Cmd B : Type} (codec : Codec System Cmd B)
    (ExecuteOn : Cmd → System → System × Option Error) (system : System) (input : List B) :
    Option (Except Error System) :=
  match codec.decodeSystem system input with
  | .error err => if err = Error.EOF then some (.ok system) else some (.error err)
  | .ok (system, rest) => replay codec ExecuteOn (rest.length + 1) system rest

/-- The failures one call of `Load` may meet, in the order of the calls that report them. -/
structure Faults where
  stat : Option Error
  mkdirSource : Option Error
  openSource : Option Error
  mkdirTemp : Option Error
  openTemp : Option Error
  encode : Option Error
  rename : Option Error
  deriving DecidableEq, Repr

/-- A call of `Load` in which nothing fails. -/
def Faults.none : Faults :=
  { stat := Option.none, mkdirSource := Option.none, openSource := Option.none,
    mkdirTemp := Option.none, openTemp := Option.none, encode := Option.none,
    rename := Option.none }

/-- What `Load` returns, `(*Rambo[System], error)`, and the file system it leaves. -/
structure Loaded (System B : Type) where
  handle : Option (Rambo System)
  err : Option Error
  fs : FileSystem B

/-- Lines 44-49: the file `Load` reads, the staging path unless `os.Stat` of the primary
path returns something that is not `os.ErrNotExist`. -/
def sourcePath {B : Type} (fault : Option Error) (fs : FileSystem B)
    (storageFilePath : String) : String :=
  match Stat fault fs storageFilePath with
  | some err => if err = Error.ErrNotExist then storageFilePath ++ ".tmp" else storageFilePath
  | Option.none => storageFilePath

/-- Lines 38-82, `Load` (the gob registrations of lines 39-42 are part of `codec`). -/
def Load {System Cmd B : Type} [Inhabited B] (codec : Codec System Cmd B)
    (ExecuteOn : Cmd → System → System × Option Error) (faults : Faults)
    (fs : FileSystem B) (storageFilePath : String) (initial : System) :
    Option (Loaded System B) :=
  let tempFilePath := storageFilePath ++ ".tmp"
  let filePath := sourcePath faults.stat fs storageFilePath
  match openFile faults.mkdirSource faults.openSource fs filePath with
  | (.error err, fs1) => some { handle := Option.none, err := some err, fs := fs1 }
  | (.ok file, fs1) =>
    match restoreSystem codec ExecuteOn initial (fs1.read file) with
    | Option.none => Option.none
    | some (.error err) => some { handle := Option.none, err := some err, fs := fs1 }
    | some (.ok system) =>
      match openFile faults.mkdirTemp faults.openTemp fs1 tempFilePath with
      | (.error err, fs2) => some { handle := Option.none, err := some err, fs := fs2 }
      | (.ok file, fs2) =>
        match (NewEncoder file).Encode faults.encode fs2 (codec.encodeSystem system) with
        | (some err, fs3, _) => some { handle := Option.none, err := some err, fs := fs3 }
        | (Option.none, fs3, encoder) =>
          match Rename faults.rename fs3 tempFilePath storageFilePath with
          | (some err, fs4) => some { handle := Option.none, err := some err, fs := fs4 }
          | (Option.none, fs4) =>
            some { handle := some { system := system, encoder := encoder },
                   err := Option.none, fs := fs4 }

/-- Lines 95-105, `Transact`: encode the command to the journal; on failure return that
error; otherwise execute the command on the system and return its error. -/
def Rambo.Transact {System Cmd B : Type} [Inhabited B] (p : Rambo System)
    (codec : Codec System Cmd B) (ExecuteOn : Cmd → System → System × Option Error)
    (fault : Option Error) (fs : FileSystem B) (command : Cmd) :
    Rambo System × FileSystem B × Option Error :=
  match p.encoder.Encode fault fs (codec.encodeCommand command) with
  | (some err, fs1, encoder) => ({ p with encoder := encoder }, fs1, some err)
  | (Option.none, fs1, encoder) =>
    match ExecuteOn command p.system with
    | (system, err) => ({ system := system, encoder := encoder }, fs1, err)

/-- Lines 117-119, `Query`: `QueryOn` receives the pointer to the system, so it returns
the system it leaves along with its answer. -/
def Rambo.Query {System Q R : Type} (p : Rambo System) (QueryOn : Q → System → System × R)
    (query : Q) : Rambo System × R :=
  match QueryOn query p.system with
  | (system, result) => ({ p with system := system }, result)

/-- Lines 125-127, `QueryFn`. -/
def Rambo.QueryFn {System R : Type} (p : Rambo System) (fn : System → System × R) :
    Rambo System × R :=
  match fn p.system with
  | (system, result) => ({ p with system := system }, result)

/-- A run of `Transact` calls on one handle, each with the failure its append meets;
returns the handle, the file system and the errors returned, in call order. -/
def transactAll {System Cmd B : Type} [Inhabited B] (codec : Codec System Cmd B)
    (ExecuteOn : Cmd → System → System × Option Error) :
    Rambo System → FileSystem B → List (Option Error × Cmd) →
      Rambo System × FileSystem B × List (Option Error)
  | p, fs, [] => (p, fs, [])
  | p, fs, (fault, command) :: steps =>
    match p.Transact codec ExecuteOn fault fs command with
    | (p1, fs1, err) =>
      match transactAll codec ExecuteOn p1 fs1 steps with
      | (p2, fs2, errs) => (p2, fs2, err :: errs)

/-- The system after executing the commands in order, their errors dropped. -/
def applyAll {System Cmd : Type} (ExecuteOn : Cmd → System → System × Option Error)
    (system : System) (commands : List Cmd) : System :=
  commands.foldl (fun s c => (ExecuteOn c s).1) system

/-- The bytes of a journal: the encodings of the commands, in order. -/
def encodeAll {System Cmd B : Type} (codec : Codec System Cmd B) (commands : List Cmd) :
    List B :=
  (commands.map codec.encodeCommand).flatten

/-! ## Vocabulary of the statements -/

/-- The stream a handle has written so far through its encoder: the snapshot `Load` wrote
and the journal entries since, that is the file up to the offset of the encoder. -/
def Rambo.stream {System B : Type} [Inhabited B] (p : Rambo System) (fs : FileSystem B) :
    List B :=
  readUpTo (fs.data p.encoder.w.ino) p.encoder.w.off

/-- The commands executed in order on one system, with the error each one reports. -/
def executeAll {System Cmd : Type} (ExecuteOn : Cmd → System → System × Option Error) :
    System → List Cmd → System × List (Option Error)
  | system, [] => (system, [])
  | system, command :: commands =>
    match ExecuteOn command system with
    | (system1, err) =>
      match executeAll ExecuteOn system1 commands with
      | (system2, errs) => (system2, err :: errs)

/-- What `Load` reads: the content of the source file, nothing when the file is created. -/
def sourceBytes {B : Type} (fault : Option Error) (fs : FileSystem B)
    (storageFilePath : String) : List B :=
  (fs.content (sourcePath fault fs storageFilePath)).getD []

/-- The decoder reads the commands `commands` from `input`, one after the other, and
leaves `rest` unread. -/
def decodesJournal {System Cmd B : Type} (codec : Codec System Cmd B) :
    List B → List Cmd → List B → Prop
  | input, [], rest => rest = input
  | input, command :: commands, rest =>
    ∃ mid, codec.decodeCommand input = .ok (command, mid) ∧ decodesJournal codec mid commands rest

/-- Every command the decoder returns has consumed some input (a gob message is never
empty). -/
def Codec.Progress {System Cmd B : Type} (codec : Codec System Cmd B) : Prop :=
  ∀ input command rest, codec.decodeCommand input = .ok (command, rest) →
    rest.length < input.length

/-- The round trip of gob: an empty stream is a clean end of data; a command is read back
from its encoding; the snapshot of a system is read back into an equal system. -/
structure Codec.Lawful {System Cmd B : Type} (codec : Codec System Cmd B) : Prop where
  decodeSystem_nil : ∀ dest, codec.decodeSystem dest [] = .error Error.EOF
  decodeCommand_nil : codec.decodeCommand [] = .error Error.EOF
  decodeSystem_encode : ∀ system rest,
    codec.decodeSystem system (codec.encodeSystem system ++ rest) = .ok (system, rest)
  decodeCommand_encode : ∀ command rest,
    codec.decodeCommand (codec.encodeCommand command ++ rest) = .ok (command, rest)

/-- No call inside `Load` fails (whatever `os.Stat` returned). -/
def Faults.quiet (faults : Faults) : Prop :=
  faults.mkdirSource = Option.none ∧ faults.openSource = Option.none
  ∧ faults.mkdirTemp = Option.none ∧ faults.openTemp = Option.none
  ∧ faults.encode = Option.none ∧ faults.rename = Option.none

/-- The result `(nil, err)`: no handle, and the error `err`. -/
def Loaded.failsWith {System B : Type} (out : Loaded System B) (err : Error) : Prop :=
  out.handle = Option.none ∧ out.err = some err

/-! ## The sample application of the test suite (`rambo_support_test.go`) -/

/-- The type `Calc`. Its `float64` total is a rational number here: the totals of the tests
and of the example are computed without rounding, and none of them divides by zero. -/
structure Calc where
  Total : ℚ
  deriving DecidableEq

/-- The commands `Add`, `Sub`, `Mul` and `Div` of the test suite, each with its `Amount`. -/
inductive CalcCommand where
  | Add (Amount : ℚ)
  | Sub (Amount : ℚ)
  | Mul (Amount : ℚ)
  | Div (Amount : ℚ)
  deriving DecidableEq

/-- The four `ExecuteOn` methods of `rambo_support_test.go`, lines 17-20. -/
def CalcCommand.ExecuteOn : CalcCommand → Calc → Calc × Option Error
  | .Add amount, state => ({ Total := state.Total + amount }, none)
  | .Sub amount, state => ({ Total := state.Total - amount }, none)
  | .Mul amount, state => ({ Total := state.Total * amount }, none)
  | .Div amount, state => ({ Total := state.Total / amount }, none)

/-- The query type `Total`. -/
inductive Total where
  | mk
  deriving DecidableEq

/-- The method `QueryOn` of `Total`, line 21. -/
def Total.QueryOn : Total → Calc → Calc × ℚ
  | _, state => (state, state.Total)

/-- Reads one record of the sample wire format: a count `n`, then `n` words. An empty
input is a clean end of data, an input shorter than announced ends inside a record.
The format stands in for the wire format of gob and keeps what `Load` depends on: records
are framed, `io.EOF` is returned only between records, a field holding the zero value is
not transmitted, and decoding stores the transmitted fields into the destination. -/
def frame (input : List Int) : Except Error (List Int × List Int) :=
  match input with
  | [] => .error Error.EOF
  | n :: rest =>
    if rest.length < n.toNat then .error Error.ErrUnexpectedEOF
    else .ok (rest.take n.toNat, rest.drop n.toNat)

/-- Encoding of a `Calc` in the sample wire format: type 0, then the field `Total` as
numerator and denominator, left out when it is zero. The documentation of gob: "If a field
has the zero value for its type (except arrays; see above), it is omitted from the
transmission." -/
def encodeCalc (state : Calc) : List Int :=
  if state.Total = 0 then [1, 0] else [3, 0, state.Total.num, state.Total.den]

/-- Decoding of a `Calc` into `dest`, the value the destination pointer points to: a
transmitted field is stored, a field that was not transmitted is left as it is in `dest`.
The documentation of gob: the decoder allocates only where allocation is required,
otherwise "it will update the destination variables with values read from the stream. It
does not initialize them first, so if the destination is a compound value such as a map,
struct, or slice, the decoded values will be merged elementwise into the existing
variables." In `restoreSystem` the destination is the struct `initial` points to. -/
def decodeCalc (dest : Calc) (input : List Int) : Except Error (Calc × List Int) :=
  match frame input with
  | .error err => .error err
  | .ok (record, rest) =>
    match record with
    | [t] => if t = 0 then .ok (dest, rest) else .error (Error.other "gob: type mismatch")
    | [t, n, d] =>
      if t = 0 then .ok ({ Total := (n : ℚ) / (d : ℚ) }, rest)
      else .error (Error.other "gob: type mismatch")
    | _ => .error (Error.other "gob: type mismatch")

/-- Encoding of a command: its type (1 to 4), then `Amount` as numerator and denominator. -/
def encodeCalcCommand : CalcCommand → List Int
  | .Add amount => [3, 1, amount.num, amount.den]
  | .Sub amount => [3, 2, amount.num, amount.den]
  | .Mul amount => [3, 3, amount.num, amount.den]
  | .Div amount => [3, 4, amount.num, amount.den]

/-- Decoding of a command into a fresh value. -/
def decodeCalcCommand (input : List Int) : Except Error (CalcCommand × List Int) :=
  match frame input with
  | .error err => .error err
  | .ok (record, rest) =>
    match record with
    | [t, n, d] =>
      if t = 1 then .ok (.Add ((n : ℚ) / (d : ℚ)), rest)
      else if t = 2 then .ok (.Sub ((n : ℚ) / (d : ℚ)), rest)
      else if t = 3 then .ok (.Mul ((n : ℚ) / (d : ℚ)), rest)
      else if t = 4 then .ok (.Div ((n : ℚ) / (d : ℚ)), rest)
      else .error (Error.other "gob: type mismatch")
    | _ => .error (Error.other "gob: type mismatch")

/-- The codec of the sample application, after `gob.Register` of `&Calc{}`, `&Add{}`,
`&Sub{}`, `&Mul{}` and `&Div{}`. -/
def calcCodec : Codec Calc CalcCommand Int :=
  { encodeSystem := encodeCalc
    encodeCommand := encodeCalcCommand
    decodeSystem := decodeCalc
    decodeCommand := decodeCalcCommand }

/-- A file system without files. -/
def emptyFS : FileSystem Int :=
  { names := fun _ => none, data := fun _ => [], next := 0 }

/-- A file system holding the given files, the i-th one in inode i. -/
def mkFS (files : List (String × List Int)) : FileSystem Int :=
  { names := fun p => (files.findIdx? (fun f => f.1 = p))
    data := fun i => ((files.get? i).map Prod.snd).getD []
    next := files.length }

/-- The handle `Load` returns for the sample application on a path without files: a zero
total, the encoder past the two words of the snapshot in inode 0. -/
def calcHandle : Rambo Calc :=
  { system := { Total := 0 }, encoder := { w := { ino := 0, off := 2 } } }

/-- The file system `Load` leaves there: the primary file `db` holds the snapshot. -/
def calcFS : FileSystem Int := mkFS [("db", [1, 0])]

/-- The calls of `ExampleLoad`: `Add(10)`, `Sub(2.5)`, `Mul(4.25)`, `Div(1.25)`, each with
an append that succeeds. -/
def exampleSteps : List (Option Error × CalcCommand) :=
  [(none, .Add 10), (none, .Sub 2.5), (none, .Mul 4.25), (none, .Div 1.25)]

/-- The calls of the test "multiple transaction types": `Add(10)`, `Sub(5)`, `Mul(4)`,
`Div(8)`. -/
def testSteps : List (Option Error × CalcCommand) :=
  [(none, .Add 10), (none, .Sub 5), (none, .Mul 4), (none, .Div 8)]

/-- A primary file holding the snapshot of total 0 next to a staging file that still holds
the snapshot of total 5, left by a `Load` whose `os.Rename` failed. -/
def staleFS : FileSystem Int := mkFS [("db", [1, 0]), ("db.tmp", [3, 0, 5, 1])]

/-- A run that leaves such a staging file behind: `Load` on a path without files, then
`Add(5)`; a second `Load` whose `os.Rename` fails, which returns an error and leaves its
staging file in place; `Sub(5)` on the first handle; a third `Load` in which nothing
fails. The result is that of the third `Load`. -/
def staleSession : Option (Loaded Calc Int) :=
  (Load calcCodec CalcCommand.ExecuteOn Faults.none emptyFS "db" { Total := 0 }).bind
    fun first => first.handle.bind fun p1 =>
      match p1.Transact calcCodec CalcCommand.ExecuteOn none first.fs (.Add 5) with
      | (p2, fs2, _) =>
        (Load calcCodec CalcCommand.ExecuteOn
            { Faults.none with rename := some (Error.other "rename failed") } fs2 "db"
            { Total := 0 }).bind
          fun second =>
            match p2.Transact calcCodec CalcCommand.ExecuteOn none second.fs (.Sub 5) with
            | (_, fs3, _) =>
              Load calcCodec CalcCommand.ExecuteOn Faults.none fs3 "db" { Total := 0 }

/-- What a test looks at after `Load`: the system of the handle, the offset of its
encoder, the error, and the content of the primary file. -/
def observe (path : String) (out : Loaded Calc Int) :
    Option (Calc × Nat) × Option Error × Option (List Int) :=
  (out.handle.map (fun p => (p.system, p.encoder.w.off)), out.err, out.fs.content path)

/-! ## Files and writes -/

theorem length_readUpTo {B : Type} [Inhabited B] (content : List B) (off : Nat) :
    (readUpTo content off).length = off := by
  simp only [readUpTo, List.length_append, List.length_take, List.length_replicate]
  omega

theorem readUpTo_length {B : Type} [Inhabited B] (content : List B) :
    readUpTo content content.length = content := by
  simp [readUpTo]

theorem writeAt_at_end {B : Type} [Inhabited B] (old : List B) (bytes : List B) :
    writeAt old old.length bytes = old ++ bytes := by
  simp [writeAt, readUpTo]

theorem writeAt_nil {B : Type} [Inhabited B] (bytes : List B) :
    writeAt [] 0 bytes = bytes := by
  simp [writeAt, readUpTo]

theorem length_writeAt {B : Type} [Inhabited B] (old : List B) (off : Nat)
    (bytes : List B) :
    (writeAt old off bytes).length
      = off + bytes.length + (old.length - (off + bytes.length)) := by
  simp only [writeAt, List.length_append, length_readUpTo, List.length_drop]

theorem readUpTo_writeAt {B : Type} [Inhabited B] (old : List B) (off : Nat)
    (bytes : List B) :
    readUpTo (writeAt old off bytes) (off + bytes.length) = readUpTo old off ++ bytes := by
  have hlen : (readUpTo old off ++ bytes).length = off + bytes.length := by
    simp [length_readUpTo]
  have hfull := length_writeAt old off bytes
  have htake : (writeAt old off bytes).take (off + bytes.length)
      = readUpTo old off ++ bytes := by
    rw [← hlen]
    exact List.take_left _ _
  have hgap : off + bytes.length - (writeAt old off bytes).length = 0 := by omega
  rw [readUpTo, htake, hgap]
  simp

theorem tempPath_ne (path : String) : path ++ ".tmp" ≠ path := by
  intro h
  have hlen := congrArg String.length h
  rw [String.length_append] at hlen
  have h4 : (".tmp" : String).length = 4 := by decide
  omega

theorem applyAll_cons {System Cmd : Type} (ExecuteOn : Cmd → System → System × Option Error)
    (system : System) (command : Cmd) (commands : List Cmd) :
    applyAll ExecuteOn system (command :: commands)
      = applyAll ExecuteOn (ExecuteOn command system).1 commands := rfl

theorem encodeAll_cons {System Cmd B : Type} (codec : Codec System Cmd B) (command : Cmd)
    (commands : List Cmd) :
    encodeAll codec (command :: commands)
      = codec.encodeCommand command ++ encodeAll codec commands := by
  simp [encodeAll]

theorem executeAll_fst {System Cmd : Type} (ExecuteOn : Cmd → System → System × Option Error)
    (system : System) (commands : List Cmd) :
    (executeAll ExecuteOn system commands).1 = applyAll ExecuteOn system commands := by
  induction commands generalizing system with
  | nil => rfl
  | cons command commands ih =>
    simp only [executeAll, applyAll_cons]
    exact ih _

/-! ## One successful Transact, and a run of them -/

theorem Transact_ok {System Cmd B : Type} [Inhabited B] (p : Rambo System)
    (codec : Codec System Cmd B) (ExecuteOn : Cmd → System → System × Option Error)
    (fs : FileSystem B) (command : Cmd) :
    p.Transact codec ExecuteOn none fs command
      = ({ system := (ExecuteOn command p.system).1,
           encoder := { w := { ino := p.encoder.w.ino,
                               off := p.encoder.w.off + (codec.encodeCommand command).length } } },
         { fs with data := fun i =>
             if i = p.encoder.w.ino
             then writeAt (fs.data i) p.encoder.w.off (codec.encodeCommand command)
             else fs.data i },
         (ExecuteOn command p.system).2) := by
  simp [Rambo.Transact, Encoder.Encode, FileSystem.write]

theorem transactAll_ok {System Cmd B : Type} [Inhabited B] (codec : Codec System Cmd B)
    (ExecuteOn : Cmd → System → System × Option Error)
    (steps : List (Option Error × Cmd)) (hsteps : ∀ step ∈ steps, step.1 = none) :
    ∀ (p : Rambo System) (fs : FileSystem B),
      (transactAll codec ExecuteOn p fs steps).1.system
          = applyAll ExecuteOn p.system (steps.map Prod.snd)
      ∧ (transactAll codec ExecuteOn p fs steps).2.2
          = (executeAll ExecuteOn p.system (steps.map Prod.snd)).2
      ∧ (transactAll codec ExecuteOn p fs steps).1.encoder.w.ino = p.encoder.w.ino
      ∧ (transactAll codec ExecuteOn p fs steps).1.stream
            (transactAll codec ExecuteOn p fs steps).2.1
          = p.stream fs ++ encodeAll codec (steps.map Prod.snd)
      ∧ (transactAll codec ExecuteOn p fs steps).2.1.names = fs.names
      ∧ (p.encoder.w.off = (fs.data p.encoder.w.ino).length →
          (transactAll codec ExecuteOn p fs steps).2.1.data p.encoder.w.ino
            = fs.data p.encoder.w.ino ++ encodeAll codec (steps.map Prod.snd)) := by
  induction steps with
  | nil =>
    intro p fs
    simp [transactAll, applyAll, executeAll, encodeAll]
  | cons step steps ih =>
    intro p fs
    obtain ⟨fault, command⟩ := step
    have hfault : fault = none := hsteps (fault, command) (List.mem_cons_self _ _)
    subst hfault
    have hrest : ∀ st ∈ steps, st.1 = none :=
      fun st hst => hsteps st (List.mem_cons_of_mem _ hst)
    simp only [transactAll, Transact_ok, List.map_cons, applyAll_cons, encodeAll_cons,
      executeAll]
    obtain ⟨h1, h2, h3, h4, h5, h6⟩ := ih hrest
      { system := (ExecuteOn command p.system).1,
        encoder := { w := { ino := p.encoder.w.ino,
                            off := p.encoder.w.off + (codec.encodeCommand command).length } } }
      { fs with data := fun i =>
          if i = p.encoder.w.ino
          then writeAt (fs.data i) p.encoder.w.off (codec.encodeCommand command)
          else fs.data i }
    refine ⟨h1, ?_, h3, ?_, h5, ?_⟩
    · simp only at h2 ⊢
      rw [h2]
    · rw [h4]
      simp only [Rambo.stream, if_true, readUpTo_writeAt, List.append_assoc]
    · intro hend
      have hend1 : p.encoder.w.off + (codec.encodeCommand command).length
          = (writeAt (fs.data p.encoder.w.ino) p.encoder.w.off
              (codec.encodeCommand command)).length := by
        rw [hend, writeAt_at_end]
        simp
      have h6a := h6 (by simpa using hend1)
      simp only at h6a
      rw [h6a]
      simp only [if_true]
      rw [hend, writeAt_at_end, List.append_assoc]

/-! ## Transact -/

/-- C2. When the append of the command to the journal fails with `err`, `Transact` returns
exactly `err`, leaves the system as it was, and its result does not depend on the
command's `ExecuteOn` at all: `ExecuteOn` is not run. -/
theorem Transact_append_failure {System Cmd B : Type} [Inhabited B] (p : Rambo System)
    (codec : Codec System Cmd B) (ExecuteOn ExecuteOn2 : Cmd → System → System × Option Error)
    (fault : Option Error) (err : Error) (fs : FileSystem B) (command : Cmd)
    (hfail : (p.encoder.Encode fault fs (codec.encodeCommand command)).1 = some err) :
    (p.Transact codec ExecuteOn fault fs command).2.2 = some err
    ∧ (p.Transact codec ExecuteOn fault fs command).1.system = p.system
    ∧ p.Transact codec ExecuteOn fault fs command
        = p.Transact codec ExecuteOn2 fault fs command := by
  cases fault with
  | none => simp [Encoder.Encode, FileSystem.write] at hfail
  | some e =>
    simp only [Encoder.Encode, FileSystem.write, Option.some.injEq] at hfail
    subst hfail
    simp [Rambo.Transact, Encoder.Encode, FileSystem.write]

/-- C3. For every handle, a `Transact` whose append succeeds extends the stream written
through the handle by exactly the encoding of the command, leaves the system `ExecuteOn`
produces and returns the error `ExecuteOn` reports (the entry is written whatever that
error is); with the handle at the end of its file the file itself grows by that entry.
Hence a run of such calls writes the entries in call order, leaves the left fold of the
commands over the system and returns their errors in order. -/
theorem Transact_journals_then_applies {System Cmd B : Type} [Inhabited B]
    (p : Rambo System) (codec : Codec System Cmd B)
    (ExecuteOn : Cmd → System → System × Option Error) (fs : FileSystem B) :
    (∀ (fault : Option Error) (command : Cmd),
      (p.encoder.Encode fault fs (codec.encodeCommand command)).1 = none →
        (p.Transact codec ExecuteOn fault fs command).1.stream
            (p.Transact codec ExecuteOn fault fs command).2.1
          = p.stream fs ++ codec.encodeCommand command
        ∧ (p.Transact codec ExecuteOn fault fs command).1.system
          = (ExecuteOn command p.system).1
        ∧ (p.Transact codec ExecuteOn fault fs command).2.2 = (ExecuteOn command p.system).2
        ∧ (p.encoder.w.off = (fs.data p.encoder.w.ino).length →
            (p.Transact codec ExecuteOn fault fs command).2.1.data p.encoder.w.ino
              = fs.data p.encoder.w.ino ++ codec.encodeCommand command))
    ∧ (∀ steps : List (Option Error × Cmd), (∀ step ∈ steps, step.1 = none) →
        (transactAll codec ExecuteOn p fs steps).1.stream
            (transactAll codec ExecuteOn p fs steps).2.1
          = p.stream fs ++ encodeAll codec (steps.map Prod.snd)
        ∧ (transactAll codec ExecuteOn p fs steps).1.system
          = applyAll ExecuteOn p.system (steps.map Prod.snd)
        ∧ (transactAll codec ExecuteOn p fs steps).2.2
          = (executeAll ExecuteOn p.system (steps.map Prod.snd)).2
        ∧ (p.encoder.w.off = (fs.data p.encoder.w.ino).length →
            (transactAll codec ExecuteOn p fs steps).2.1.data p.encoder.w.ino
              = fs.data p.encoder.w.ino ++ encodeAll codec (steps.map Prod.snd))) := by
  constructor
  · intro fault command happend
    cases fault with
    | some e => simp [Encoder.Encode, FileSystem.write] at happend
    | none =>
      rw [Transact_ok]
      refine ⟨?_, rfl, rfl, ?_⟩
      · simp only [Rambo.stream, if_true, readUpTo_writeAt]
      · intro hend
        simp only [if_true]
        rw [hend, writeAt_at_end]
  · intro steps hsteps
    obtain ⟨h1, h2, _, h4, _, h6⟩ := transactAll_ok codec ExecuteOn steps hsteps p fs
    exact ⟨h4, h1, h2, h6⟩

/-- Witness of C2 on the sample application: the append of `Add(7)` fails, `Transact`
returns that error and the total stays 0. -/
theorem Transact_append_failure_witness :
    (calcHandle.encoder.Encode (some (Error.other "disk full")) calcFS
        (calcCodec.encodeCommand (.Add 7))).1 = some (Error.other "disk full")
    ∧ (calcHandle.Transact calcCodec CalcCommand.ExecuteOn (some (Error.other "disk full"))
        calcFS (.Add 7)).2.2 = some (Error.other "disk full")
    ∧ (calcHandle.Transact calcCodec CalcCommand.ExecuteOn (some (Error.other "disk full"))
        calcFS (.Add 7)).1.system = { Total := 0 } :=
  have h := Transact_append_failure calcHandle calcCodec CalcCommand.ExecuteOn
    CalcCommand.ExecuteOn (some (Error.other "disk full")) (Error.other "disk full") calcFS
    (.Add 7) rfl
  ⟨rfl, h.1, h.2.1⟩

/-- Witness of C3, the example of the package: from total 0, `Add(10)`, `Sub(2.5)`,
`Mul(4.25)`, `Div(1.25)` leave total 25.5, return no error, and the file holds the snapshot
followed by the four entries in call order. -/
theorem Transact_journals_then_applies_witness :
    (∀ step ∈ exampleSteps, step.1 = none)
    ∧ calcHandle.encoder.w.off = (calcFS.data calcHandle.encoder.w.ino).length
    ∧ (transactAll calcCodec CalcCommand.ExecuteOn calcHandle calcFS exampleSteps).1.system
        = { Total := 25.5 }
    ∧ (transactAll calcCodec CalcCommand.ExecuteOn calcHandle calcFS exampleSteps).2.2
        = [none, none, none, none]
    ∧ (transactAll calcCodec CalcCommand.ExecuteOn calcHandle calcFS exampleSteps).2.1.data 0
        = [1, 0, 3, 1, 10, 1, 3, 2, 5, 2, 3, 3, 17, 4, 3, 4, 5, 4] :=
  have hsteps : ∀ step ∈ exampleSteps, step.1 = none := by with_unfolding_all decide
  have hend : calcHandle.encoder.w.off = (calcFS.data calcHandle.encoder.w.ino).length := by
    decide
  have h := (Transact_journals_then_applies calcHandle calcCodec CalcCommand.ExecuteOn
    calcFS).2 exampleSteps hsteps
  ⟨hsteps, hend, h.2.1.trans (by with_unfolding_all decide),
    h.2.2.1.trans (by with_unfolding_all decide),
    (h.2.2.2 hend).trans (by with_unfolding_all decide)⟩

/-! ## Query and QueryFn -/

/-- C9. For a query object and a query function that leave the system as it is, `Query`
returns what `QueryOn` answers on the current system, `QueryFn` what the function answers,
both leave the handle (system and encoder) unchanged, and `Query(q)` is
`QueryFn(q.QueryOn)`. Neither takes the file system: the journal is out of their reach. -/
theorem Query_is_a_pure_read {System Q R : Type} (p : Rambo System)
    (QueryOn : Q → System → System × R) (query : Q) (fn : System → System × R)
    (hquery : (QueryOn query p.system).1 = p.system) (hfn : (fn p.system).1 = p.system) :
    (p.Query QueryOn query).2 = (QueryOn query p.system).2
    ∧ (p.Query QueryOn query).1 = p
    ∧ (p.QueryFn fn).2 = (fn p.system).2
    ∧ (p.QueryFn fn).1 = p
    ∧ p.Query QueryOn query = p.QueryFn (QueryOn query) := by
  refine ⟨rfl, ?_, rfl, ?_, rfl⟩
  · simp only [Rambo.Query]
    rw [hquery]
  · simp only [Rambo.QueryFn]
    rw [hfn]

/-- Witness of C9, the first test: after `Add(2)` the query `Total` answers 2, after
`Mul(5)` the query function reading `Total` answers 10, and the handle is unchanged. -/
theorem Query_is_a_pure_read_witness :
    ((Total.QueryOn Total.mk
        (calcHandle.Transact calcCodec CalcCommand.ExecuteOn none calcFS (.Add 2)).1.system).1
      = (calcHandle.Transact calcCodec CalcCommand.ExecuteOn none calcFS (.Add 2)).1.system)
    ∧ ((calcHandle.Transact calcCodec CalcCommand.ExecuteOn none calcFS (.Add 2)).1.Query
        Total.QueryOn Total.mk).2 = 2
    ∧ ((calcHandle.Transact calcCodec CalcCommand.ExecuteOn none calcFS (.Add 2)).1.Query
        Total.QueryOn Total.mk).1
      = (calcHandle.Transact calcCodec CalcCommand.ExecuteOn none calcFS (.Add 2)).1
    ∧ ((transactAll calcCodec CalcCommand.ExecuteOn calcHandle calcFS
          [(none, .Add 2), (none, .Mul 5)]).1.QueryFn (fun state => (state, state.Total))).2
      = 10 :=
  have h := Query_is_a_pure_read
    (calcHandle.Transact calcCodec CalcCommand.ExecuteOn none calcFS (.Add 2)).1
    Total.QueryOn Total.mk (fun state => (state, state.Total)) rfl rfl
  have h2 := Query_is_a_pure_read
    (transactAll calcCodec CalcCommand.ExecuteOn calcHandle calcFS
      [(none, .Add 2), (none, .Mul 5)]).1
    Total.QueryOn Total.mk (fun state => (state, state.Total)) rfl rfl
  ⟨rfl, h.1.trans (by with_unfolding_all decide), h.2.1,
    h2.2.2.1.trans (by with_unfolding_all decide)⟩

/-! ## restoreSystem -/

theorem replay_journal {System Cmd B : Type} (codec : Codec System Cmd B)
    (ExecuteOn : Cmd → System → System × Option Error) (commands : List Cmd) :
    ∀ (input rest : List B) (system : System) (k : Nat),
      decodesJournal codec input commands rest →
      replay codec ExecuteOn (commands.length + k) system input
        = replay codec ExecuteOn k (applyAll ExecuteOn system commands) rest := by
  induction commands with
  | nil =>
    intro input rest system k h
    simp only [decodesJournal] at h
    subst h
    simp [applyAll]
  | cons command commands ih =>
    intro input rest system k h
    obtain ⟨mid, hdec, hrest⟩ := h
    have hfuel : (command :: commands).length + k = (commands.length + k) + 1 := by
      simp only [List.length_cons]
      omega
    rw [hfuel]
    simp only [replay, hdec, applyAll_cons]
    exact ih mid rest _ k hrest

theorem journal_length {System Cmd B : Type} (codec : Codec System Cmd B)
    (hprog : codec.Progress) (commands : List Cmd) :
    ∀ (input rest : List B), decodesJournal codec input commands rest →
      rest.length + commands.length ≤ input.length := by
  induction commands with
  | nil =>
    intro input rest h
    simp only [decodesJournal] at h
    subst h
    simp
  | cons command commands ih =>
    intro input rest h
    obtain ⟨mid, hdec, hrest⟩ := h
    have h1 := hprog input command mid hdec
    have h2 := ih mid rest hrest
    simp only [List.length_cons]
    omega

theorem replay_total {System Cmd B : Type} (codec : Codec System Cmd B)
    (hprog : codec.Progress) (ExecuteOn : Cmd → System → System × Option Error) :
    ∀ (fuel : Nat) (system : System) (input : List B), input.length < fuel →
      ∃ r, replay codec ExecuteOn fuel system input = some r := by
  intro fuel
  induction fuel with
  | zero => intro system input h; omega
  | succ fuel ih =>
    intro system input h
    simp only [replay]
    cases hdec : codec.decodeCommand input with
    | error err =>
      by_cases he : err = Error.EOF
      · exact ⟨.ok system, by simp [he]⟩
      · exact ⟨.error err, by simp [he]⟩
    | ok v =>
      obtain ⟨command, rest⟩ := v
      have h1 := hprog input command rest hdec
      exact ih _ rest (by omega)

theorem restoreSystem_total {System Cmd B : Type} (codec : Codec System Cmd B)
    (hprog : codec.Progress) (ExecuteOn : Cmd → System → System × Option Error)
    (system : System) (input : List B) :
    ∃ r, restoreSystem codec ExecuteOn system input = some r := by
  simp only [restoreSystem]
  cases hdec : codec.decodeSystem system input with
  | error err =>
    by_cases he : err = Error.EOF
    · exact ⟨.ok system, by simp [he]⟩
    · exact ⟨.error err, by simp [he]⟩
  | ok v =>
    obtain ⟨s, rest⟩ := v
    exact replay_total codec hprog ExecuteOn _ s rest (by omega)

theorem restoreSystem_journal {System Cmd B : Type} (codec : Codec System Cmd B)
    (hprog : codec.Progress) (ExecuteOn : Cmd → System → System × Option Error)
    (initial s : System) (input rest tail : List B) (commands : List Cmd)
    (hsnap : codec.decodeSystem initial input = .ok (s, rest))
    (hjournal : decodesJournal codec rest commands tail) :
    restoreSystem codec ExecuteOn initial input
      = replay codec ExecuteOn (rest.length + 1 - commands.length)
          (applyAll ExecuteOn s commands) tail
    ∧ tail.length < rest.length + 1 - commands.length := by
  have hlen := journal_length codec hprog commands rest tail hjournal
  have hfuel : rest.length + 1 = commands.length + (rest.length + 1 - commands.length) := by
    omega
  constructor
  · simp only [restoreSystem, hsnap]
    rw [hfuel, replay_journal codec ExecuteOn commands rest tail s _ hjournal]
    congr 1
    omega
  · omega

theorem replay_eof {System Cmd B : Type} (codec : Codec System Cmd B)
    (ExecuteOn : Cmd → System → System × Option Error) (fuel : Nat) (system : System)
    (input : List B) (hfuel : 0 < fuel)
    (heof : codec.decodeCommand input = .error Error.EOF) :
    replay codec ExecuteOn fuel system input = some (.ok system) := by
  obtain ⟨n, rfl⟩ : ∃ n, fuel = n + 1 := ⟨fuel - 1, by omega⟩
  simp [replay, heof]

theorem replay_error {System Cmd B : Type} (codec : Codec System Cmd B)
    (ExecuteOn : Cmd → System → System × Option Error) (fuel : Nat) (system : System)
    (input : List B) (err : Error) (hfuel : 0 < fuel)
    (hdec : codec.decodeCommand input = .error err) (herr : err ≠ Error.EOF) :
    replay codec ExecuteOn fuel system input = some (.error err) := by
  obtain ⟨n, rfl⟩ : ∃ n, fuel = n + 1 := ⟨fuel - 1, by omega⟩
  simp [replay, hdec, herr]

theorem restoreSystem_snapshot_eof {System Cmd B : Type} (codec : Codec System Cmd B)
    (ExecuteOn : Cmd → System → System × Option Error) (initial : System) (input : List B)
    (h : codec.decodeSystem initial input = .error Error.EOF) :
    restoreSystem codec ExecuteOn initial input = some (.ok initial) := by
  simp [restoreSystem, h]

theorem restoreSystem_snapshot_error {System Cmd B : Type} (codec : Codec System Cmd B)
    (ExecuteOn : Cmd → System → System × Option Error) (initial : System) (input : List B)
    (err : Error) (h : codec.decodeSystem initial input = .error err)
    (herr : err ≠ Error.EOF) :
    restoreSystem codec ExecuteOn initial input = some (.error err) := by
  simp [restoreSystem, h, herr]

theorem restoreSystem_entry_eof {System Cmd B : Type} (codec : Codec System Cmd B)
    (hprog : codec.Progress) (ExecuteOn : Cmd → System → System × Option Error)
    (initial s : System) (input rest tail : List B) (commands : List Cmd)
    (hsnap : codec.decodeSystem initial input = .ok (s, rest))
    (hjournal : decodesJournal codec rest commands tail)
    (heof : codec.decodeCommand tail = .error Error.EOF) :
    restoreSystem codec ExecuteOn initial input
      = some (.ok (applyAll ExecuteOn s commands)) := by
  obtain ⟨h, hfuel⟩ := restoreSystem_journal codec hprog ExecuteOn initial s input rest tail
    commands hsnap hjournal
  rw [h]
  exact replay_eof codec ExecuteOn _ _ tail (by omega) heof

theorem restoreSystem_entry_error {System Cmd B : Type} (codec : Codec System Cmd B)
    (hprog : codec.Progress) (ExecuteOn : Cmd → System → System × Option Error)
    (initial s : System) (input rest tail : List B) (commands : List Cmd) (err : Error)
    (hsnap : codec.decodeSystem initial input = .ok (s, rest))
    (hjournal : decodesJournal codec rest commands tail)
    (hdec : codec.decodeCommand tail = .error err) (herr : err ≠ Error.EOF) :
    restoreSystem codec ExecuteOn initial input = some (.error err) := by
  obtain ⟨h, hfuel⟩ := restoreSystem_journal codec hprog ExecuteOn initial s input rest tail
    commands hsnap hjournal
  rw [h]
  exact replay_error codec ExecuteOn _ _ tail err (by omega) hdec herr

/-! ## Load, when nothing fails -/

theorem sourcePath_cases {B : Type} (fault : Option Error) (fs : FileSystem B)
    (path : String) :
    sourcePath fault fs path = path ∨ sourcePath fault fs path = path ++ ".tmp" := by
  simp only [sourcePath]
  split
  · split
    · exact Or.inr rfl
    · exact Or.inl rfl
  · exact Or.inl rfl

theorem Load_quiet {System Cmd B : Type} [Inhabited B] (codec : Codec System Cmd B)
    (ExecuteOn : Cmd → System → System × Option Error) (faults : Faults)
    (fs : FileSystem B) (path : String) (initial s : System) (hq : faults.quiet)
    (hr : restoreSystem codec ExecuteOn initial (sourceBytes faults.stat fs path)
      = some (.ok s)) :
    ∃ j fs1, Load codec ExecuteOn faults fs path initial
        = some { handle := some { system := s,
                                  encoder := { w := { ino := j,
                                                      off := (codec.encodeSystem s).length } } },
                 err := none, fs := fs1 }
      ∧ fs1.names path = some j ∧ fs1.names (path ++ ".tmp") = none
      ∧ (fs.names (path ++ ".tmp") = none → fs1.data j = codec.encodeSystem s) := by
  obtain ⟨h1, h2, h3, h4, h5, h6⟩ := hq
  have hne := tempPath_ne path
  have hne2 : path ≠ path ++ ".tmp" := fun h => hne h.symm
  simp only [sourceBytes, FileSystem.content] at hr
  rcases sourcePath_cases faults.stat fs path with hsp | hsp
  · rw [hsp] at hr
    cases hp : fs.names path with
    | some i =>
      simp only [hp, Option.map_some', Option.getD_some] at hr
      cases ht : fs.names (path ++ ".tmp") with
      | some j =>
        simp only [Load, hsp, openFile, OpenFile, h1, h2, h3, h4, h5, h6, hp, ht,
          FileSystem.read, List.drop_zero, Nat.zero_add, hr, Encoder.Encode, NewEncoder, FileSystem.write,
          Rename]
        refine ⟨_, _, rfl, ?_, ?_, ?_⟩
        · simp
        · simp [hne]
        · intro h; simp at h
      | none =>
        simp only [Load, hsp, openFile, OpenFile, h1, h2, h3, h4, h5, h6, hp, ht,
          FileSystem.read, List.drop_zero, Nat.zero_add, hr, Encoder.Encode, NewEncoder, FileSystem.write,
          Rename, if_true]
        refine ⟨_, _, rfl, ?_, ?_, ?_⟩
        · simp
        · simp [hne]
        · intro _; simp [writeAt_nil]
    | none =>
      simp only [hp, Option.map_none', Option.getD_none] at hr
      cases ht : fs.names (path ++ ".tmp") with
      | some j =>
        simp only [Load, hsp, openFile, OpenFile, h1, h2, h3, h4, h5, h6, hp, ht,
          FileSystem.read, List.drop_zero, Nat.zero_add, hr, Encoder.Encode, NewEncoder, FileSystem.write,
          Rename, if_true, hne, if_false]
        refine ⟨_, _, rfl, ?_, ?_, ?_⟩
        · simp
        · simp [hne]
        · intro h; simp at h
      | none =>
        simp only [Load, hsp, openFile, OpenFile, h1, h2, h3, h4, h5, h6, hp, ht,
          FileSystem.read, List.drop_zero, Nat.zero_add, hr, Encoder.Encode, NewEncoder, FileSystem.write,
          Rename, if_true, hne, if_false]
        refine ⟨_, _, rfl, ?_, ?_, ?_⟩
        · simp
        · simp [hne]
        · intro _; simp [writeAt_nil]
  · rw [hsp] at hr
    cases ht : fs.names (path ++ ".tmp") with
    | some j =>
      simp only [ht, Option.map_some', Option.getD_some] at hr
      simp only [Load, hsp, openFile, OpenFile, h1, h2, h3, h4, h5, h6, ht,
        FileSystem.read, List.drop_zero, Nat.zero_add, hr, Encoder.Encode, NewEncoder, FileSystem.write,
        Rename]
      refine ⟨_, _, rfl, ?_, ?_, ?_⟩
      · simp
      · simp [hne]
      · intro h; simp at h
    | none =>
      simp only [ht, Option.map_none', Option.getD_none] at hr
      simp only [Load, hsp, openFile, OpenFile, h1, h2, h3, h4, h5, h6, ht,
        FileSystem.read, List.drop_zero, Nat.zero_add, hr, Encoder.Encode, NewEncoder, FileSystem.write,
        Rename, if_true]
      refine ⟨_, _, rfl, ?_, ?_, ?_⟩
      · simp
      · simp [hne]
      · intro _; simp [writeAt_nil]


/-! ## The sample codec -/

theorem calcCodec_progress : calcCodec.Progress := by
  intro input command rest h
  simp only [calcCodec, decodeCalcCommand, frame] at h
  cases input with
  | nil => simp at h
  | cons n tl =>
    simp only at h
    by_cases hlen : tl.length < n.toNat
    · simp [hlen] at h
    · simp only [hlen, if_false] at h
      have hrest : rest = tl.drop n.toNat := by
        split at h
        · split at h
          · simp only [Except.ok.injEq, Prod.mk.injEq] at h; exact h.2.symm
          · split at h
            · simp only [Except.ok.injEq, Prod.mk.injEq] at h; exact h.2.symm
            · split at h
              · simp only [Except.ok.injEq, Prod.mk.injEq] at h; exact h.2.symm
              · split at h
                · simp only [Except.ok.injEq, Prod.mk.injEq] at h; exact h.2.symm
                · simp at h
        · simp at h
      subst hrest
      simp only [List.length_drop, List.length_cons]
      omega

theorem calcCodec_lawful : calcCodec.Lawful where
  decodeSystem_nil := by
    intro dest
    simp [calcCodec, decodeCalc, frame]
  decodeCommand_nil := by
    simp [calcCodec, decodeCalcCommand, frame]
  decodeSystem_encode := by
    intro system rest
    obtain ⟨total⟩ := system
    have hlen : ¬ (rest.length + 1 + 1 + 1 < 3) := by omega
    by_cases h : total = 0
    · simp [calcCodec, decodeCalc, encodeCalc, frame, h]
    · simp [calcCodec, decodeCalc, encodeCalc, frame, h, hlen, Rat.num_div_den]
  decodeCommand_encode := by
    intro command rest
    have hlen : ¬ (rest.length + 1 + 1 + 1 < 3) := by omega
    cases command <;>
      simp [calcCodec, decodeCalcCommand, encodeCalcCommand, frame, hlen, Rat.num_div_den]

/-! ## Recovery -/

/-- From the system `s` that the decoder returns for the snapshot, read into the caller's
initial value, `restoreSystem` is a left fold: when the decoder then reads the commands
`commands` and a clean end of data, the result is the commands applied to `s` in file
order, each once, whatever errors `ExecuteOn` reports; and a `Load` in which no call fails
returns a handle holding that system. Here `s` is not the system the snapshot was taken
of when the decoder merges it into a different initial value. -/
theorem restoreSystem_folds_decoded {System Cmd B : Type} [Inhabited B]
    (codec : Codec System Cmd B) (hprog : codec.Progress)
    (ExecuteOn : Cmd → System → System × Option Error) (initial s : System)
    (input rest tail : List B) (commands : List Cmd)
    (hsnap : codec.decodeSystem initial input = .ok (s, rest))
    (hjournal : decodesJournal codec rest commands tail)
    (heof : codec.decodeCommand tail = .error Error.EOF) :
    restoreSystem codec ExecuteOn initial input = some (.ok (applyAll ExecuteOn s commands))
    ∧ ∀ (faults : Faults) (fs : FileSystem B) (path : String), faults.quiet →
        sourceBytes faults.stat fs path = input →
        ∃ p fs1, Load codec ExecuteOn faults fs path initial
            = some { handle := some p, err := none, fs := fs1 }
          ∧ p.system = applyAll ExecuteOn s commands := by
  have hr := restoreSystem_entry_eof codec hprog ExecuteOn initial s input rest tail commands
    hsnap hjournal heof
  refine ⟨hr, ?_⟩
  intro faults fs path hq hsrc
  rw [← hsrc] at hr
  obtain ⟨j, fs1, hload, _, _, _⟩ := Load_quiet codec ExecuteOn faults fs path initial _ hq hr
  exact ⟨_, fs1, hload, rfl⟩

/-- C7, the failing input. The source consists of the snapshot of total 0 followed by the
entry `Add(10)`; applying the entry to the snapshot gives total 10. `restoreSystem` with an
initial total of 5 returns total 15: the snapshot transmits no field, the decoder leaves the
initial total in place, and the replay starts from 5. With an initial total of 0 it returns
10. The same holds of `Load` on a primary file with that content, and of a run that starts
on a path without files: `Load` with total 0, `Add(10)`, then `Load` with total 5. -/
theorem replay_starts_from_merged_snapshot :
    calcCodec.encodeSystem { Total := 0 } ++ encodeAll calcCodec [.Add 10]
      = [1, 0, 3, 1, 10, 1]
    ∧ applyAll CalcCommand.ExecuteOn { Total := 0 } [.Add 10] = { Total := 10 }
    ∧ restoreSystem calcCodec CalcCommand.ExecuteOn { Total := 5 } [1, 0, 3, 1, 10, 1]
      = some (.ok { Total := 15 })
    ∧ restoreSystem calcCodec CalcCommand.ExecuteOn { Total := 0 } [1, 0, 3, 1, 10, 1]
      = some (.ok { Total := 10 })
    ∧ (Load calcCodec CalcCommand.ExecuteOn Faults.none (mkFS [("db", [1, 0, 3, 1, 10, 1])])
          "db" { Total := 5 }).map (observe "db")
      = some (some ({ Total := 15 }, 4), none, some [3, 0, 15, 1])
    ∧ ((Load calcCodec CalcCommand.ExecuteOn Faults.none emptyFS "db" { Total := 0 }).bind
        (fun first => first.handle.bind (fun p1 =>
          (Load calcCodec CalcCommand.ExecuteOn Faults.none
            (p1.Transact calcCodec CalcCommand.ExecuteOn none first.fs (.Add 10)).2.1 "db"
            { Total := 5 }).map (observe "db"))))
      = some (some ({ Total := 15 }, 4), none, some [3, 0, 15, 1]) := by
  refine ⟨?_, ?_, ?_, ?_, ?_, ?_⟩
  · with_unfolding_all rfl
  · with_unfolding_all rfl
  · with_unfolding_all rfl
  · with_unfolding_all rfl
  · with_unfolding_all rfl
  · with_unfolding_all rfl

/-! ## Load fails closed -/

theorem OpenFile_ok {B : Type} (fs : FileSystem B) (path : String) :
    ∃ file fs1, OpenFile none fs path = (.ok file, fs1)
      ∧ fs1.read file = (fs.content path).getD []
      ∧ fs1.names path = some file.ino := by
  cases h : fs.names path with
  | some i =>
    exact ⟨{ ino := i, off := 0 }, fs, by simp [OpenFile, h],
      by simp [FileSystem.read, FileSystem.content, h], h⟩
  | none =>
    exact ⟨{ ino := fs.next, off := 0 },
      { names := fun p => if p = path then some fs.next else fs.names p,
        data := fun i => if i = fs.next then [] else fs.data i,
        next := fs.next + 1 },
      by simp [OpenFile, h], by simp [FileSystem.read, FileSystem.content, h], by simp⟩

/-- C6. `Load` always returns, and returns either a handle and no error or no handle and
an error. It returns the error of the first call that fails: `os.MkdirAll` or `os.OpenFile`
on the source, `restoreSystem`, `os.MkdirAll` or `os.OpenFile` on the staging file, the
encoding of the snapshot, `os.Rename`. `restoreSystem` fails with the error of the decoder
when the snapshot or a journal entry fails to decode with anything but `io.EOF`, and
`io.EOF` instead of the snapshot or of the next entry ends the replay without error. -/
theorem Load_fails_closed {System Cmd B : Type} [Inhabited B] (codec : Codec System Cmd B)
    (hprog : codec.Progress) (ExecuteOn : Cmd → System → System × Option Error)
    (faults : Faults) (fs : FileSystem B) (path : String) (initial : System) :
    ((∀ input err, codec.decodeSystem initial input = .error err → err ≠ Error.EOF →
        restoreSystem codec ExecuteOn initial input = some (.error err))
      ∧ (∀ input s rest commands tail err,
          codec.decodeSystem initial input = .ok (s, rest) →
          decodesJournal codec rest commands tail →
          codec.decodeCommand tail = .error err → err ≠ Error.EOF →
          restoreSystem codec ExecuteOn initial input = some (.error err))
      ∧ (∀ input, codec.decodeSystem initial input = .error Error.EOF →
          restoreSystem codec ExecuteOn initial input = some (.ok initial))
      ∧ (∀ input s rest commands tail,
          codec.decodeSystem initial input = .ok (s, rest) →
          decodesJournal codec rest commands tail →
          codec.decodeCommand tail = .error Error.EOF →
          restoreSystem codec ExecuteOn initial input
            = some (.ok (applyAll ExecuteOn s commands))))
    ∧ ∃ out, Load codec ExecuteOn faults fs path initial = some out
      ∧ ((∃ p, out.handle = some p ∧ out.err = none)
          ∨ (out.handle = none ∧ ∃ err, out.err = some err))
      ∧ (∀ err, faults.mkdirSource = some err → out.failsWith err)
      ∧ (∀ err, faults.mkdirSource = none → faults.openSource = some err →
          out.failsWith err)
      ∧ (∀ err, faults.mkdirSource = none → faults.openSource = none →
          restoreSystem codec ExecuteOn initial (sourceBytes faults.stat fs path)
            = some (.error err) → out.failsWith err)
      ∧ (∀ s err, faults.mkdirSource = none → faults.openSource = none →
          restoreSystem codec ExecuteOn initial (sourceBytes faults.stat fs path)
            = some (.ok s) →
          faults.mkdirTemp = some err → out.failsWith err)
      ∧ (∀ s err, faults.mkdirSource = none → faults.openSource = none →
          restoreSystem codec ExecuteOn initial (sourceBytes faults.stat fs path)
            = some (.ok s) →
          faults.mkdirTemp = none → faults.openTemp = some err → out.failsWith err)
      ∧ (∀ s err, faults.mkdirSource = none → faults.openSource = none →
          restoreSystem codec ExecuteOn initial (sourceBytes faults.stat fs path)
            = some (.ok s) →
          faults.mkdirTemp = none → faults.openTemp = none → faults.encode = some err →
          out.failsWith err)
      ∧ (∀ s err, faults.mkdirSource = none → faults.openSource = none →
          restoreSystem codec ExecuteOn initial (sourceBytes faults.stat fs path)
            = some (.ok s) →
          faults.mkdirTemp = none → faults.openTemp = none → faults.encode = none →
          faults.rename = some err → out.failsWith err)
      ∧ (∀ s, faults.quiet →
          restoreSystem codec ExecuteOn initial (sourceBytes faults.stat fs path)
            = some (.ok s) →
          ∃ p, out.handle = some p ∧ p.system = s ∧ out.err = none) := by
  refine ⟨⟨fun input err h herr =>
      restoreSystem_snapshot_error codec ExecuteOn initial input err h herr,
    fun input s rest commands tail err hsnap hjournal hdec herr =>
      restoreSystem_entry_error codec hprog ExecuteOn initial s input rest tail commands err
        hsnap hjournal hdec herr,
    fun input h => restoreSystem_snapshot_eof codec ExecuteOn initial input h,
    fun input s rest commands tail hsnap hjournal heof =>
      restoreSystem_entry_eof codec hprog ExecuteOn initial s input rest tail commands
        hsnap hjournal heof⟩, ?_⟩
  cases h1 : faults.mkdirSource with
  | some e1 =>
    refine ⟨{ handle := none, err := some e1, fs := fs }, by simp [Load, openFile, h1], ?_⟩
    simp [Loaded.failsWith, Faults.quiet, h1]
  | none =>
    cases h2 : faults.openSource with
    | some e2 =>
      refine ⟨{ handle := none, err := some e2, fs := fs },
        by simp [Load, openFile, OpenFile, h1, h2], ?_⟩
      simp [Loaded.failsWith, Faults.quiet, h2]
    | none =>
      obtain ⟨file, fs1, hopen, hread, _⟩ := OpenFile_ok fs (sourcePath faults.stat fs path)
      have hsrc : fs1.read file = sourceBytes faults.stat fs path := hread
      obtain ⟨r, hr⟩ := restoreSystem_total codec hprog ExecuteOn initial
        (sourceBytes faults.stat fs path)
      cases r with
      | error e3 =>
        refine ⟨{ handle := none, err := some e3, fs := fs1 },
          by simp [Load, openFile, h1, h2, hopen, hsrc, hr], ?_⟩
        simp [Loaded.failsWith, Faults.quiet, hr]
      | ok s =>
        cases h3 : faults.mkdirTemp with
        | some e4 =>
          refine ⟨{ handle := none, err := some e4, fs := fs1 },
            by simp [Load, openFile, h1, h2, hopen, hsrc, hr, h3], ?_⟩
          simp [Loaded.failsWith, Faults.quiet, hr, h3]
        | none =>
          cases h4 : faults.openTemp with
          | some e5 =>
            refine ⟨{ handle := none, err := some e5, fs := fs1 },
              by simp only [Load, openFile, h1, h2, hopen, hsrc, hr, h3, h4]; simp [OpenFile],
              ?_⟩
            simp [Loaded.failsWith, Faults.quiet, hr, h4]
          | none =>
            obtain ⟨file2, fs2, hopen2, _, hname2⟩ := OpenFile_ok fs1 (path ++ ".tmp")
            cases h5 : faults.encode with
            | some e6 =>
              refine ⟨{ handle := none, err := some e6, fs := fs2 },
                by simp [Load, openFile, h1, h2, hopen, hsrc, hr, h3, h4, hopen2, h5,
                  Encoder.Encode, NewEncoder, FileSystem.write], ?_⟩
              simp [Loaded.failsWith, Faults.quiet, hr, h5]
            | none =>
              cases h6 : faults.rename with
              | some e7 =>
                refine ⟨_, by simp [Load, openFile, h1, h2, hopen, hsrc, hr, h3, h4, hopen2,
                  h5, h6, Encoder.Encode, NewEncoder, FileSystem.write, Rename]; rfl, ?_⟩
                simp [Loaded.failsWith, Faults.quiet, hr, h6]
              | none =>
                refine ⟨_, by simp [Load, openFile, h1, h2, hopen, hsrc, hr, h3, h4, hopen2,
                  h5, h6, Encoder.Encode, NewEncoder, FileSystem.write, Rename, hname2]; rfl,
                  ?_⟩
                simp [Loaded.failsWith, Faults.quiet, hr]

/-- Witness of C6 on the sample application: the primary file holds a snapshot and an
entry cut short after three of its four words; `Load` returns no handle and the error of
a stream that ends inside a record. -/
theorem Load_fails_closed_witness :
    calcCodec.Progress
    ∧ (Load calcCodec CalcCommand.ExecuteOn Faults.none (mkFS [("db", [1, 0, 3, 1, 10])]) "db"
          { Total := 0 }).map (fun out => (out.handle.isSome, out.err))
        = some (false, some Error.ErrUnexpectedEOF) :=
  ⟨calcCodec_progress, by
    obtain ⟨_, out, hload, _, _, _, h3, _⟩ :=
      Load_fails_closed calcCodec calcCodec_progress CalcCommand.ExecuteOn Faults.none
        (mkFS [("db", [1, 0, 3, 1, 10])]) "db" { Total := 0 }
    have hfail := h3 Error.ErrUnexpectedEOF rfl rfl (by with_unfolding_all rfl)
    rw [hload]
    simp only [Option.map_some', hfail.1, hfail.2, Option.isSome_none]⟩

/-! ## A successful Load -/

theorem openFile_ok_quiet {B : Type} (mkdirAll open_ : Option Error) (fs fs1 : FileSystem B)
    (path : String) (file : File)
    (h : openFile mkdirAll open_ fs path = (.ok file, fs1)) :
    mkdirAll = none ∧ open_ = none := by
  cases mkdirAll with
  | some e => simp [openFile] at h
  | none =>
    cases open_ with
    | some e => simp [openFile, OpenFile] at h
    | none => exact ⟨rfl, rfl⟩

theorem Encode_ok_quiet {B : Type} [Inhabited B] (encoder encoder1 : Encoder)
    (fault : Option Error) (fs fs1 : FileSystem B) (bytes : List B)
    (h : encoder.Encode fault fs bytes = (none, fs1, encoder1)) : fault = none := by
  cases fault with
  | some e => simp [Encoder.Encode, FileSystem.write] at h
  | none => rfl

theorem Rename_ok_quiet {B : Type} (fault : Option Error) (fs fs1 : FileSystem B)
    (oldpath newpath : String) (h : Rename fault fs oldpath newpath = (none, fs1)) :
    fault = none := by
  cases fault with
  | some e => simp [Rename] at h
  | none => rfl

theorem Load_handle_quiet {System Cmd B : Type} [Inhabited B] (codec : Codec System Cmd B)
    (ExecuteOn : Cmd → System → System × Option Error) (faults : Faults)
    (fs : FileSystem B) (path : String) (initial : System) (out : Loaded System B)
    (p : Rambo System) (h : Load codec ExecuteOn faults fs path initial = some out)
    (hp : out.handle = some p) :
    faults.quiet
    ∧ restoreSystem codec ExecuteOn initial (sourceBytes faults.stat fs path)
        = some (.ok p.system) := by
  simp only [Load] at h
  split at h
  · simp only [Option.some.injEq] at h; subst h; simp at hp
  · rename_i file fs1 hopen
    split at h
    · simp at h
    · simp only [Option.some.injEq] at h; subst h; simp at hp
    · rename_i system hrestore
      split at h
      · simp only [Option.some.injEq] at h; subst h; simp at hp
      · rename_i file2 fs2 hopen2
        split at h
        · simp only [Option.some.injEq] at h; subst h; simp at hp
        · rename_i fs3 encoder henc
          split at h
          · simp only [Option.some.injEq] at h; subst h; simp at hp
          · rename_i fs4 hren
            simp only [Option.some.injEq] at h
            subst h
            simp only [Option.some.injEq] at hp
            subst hp
            obtain ⟨h1, h2⟩ := openFile_ok_quiet _ _ _ _ _ _ hopen
            obtain ⟨h3, h4⟩ := openFile_ok_quiet _ _ _ _ _ _ hopen2
            have h5 := Encode_ok_quiet _ _ _ _ _ _ henc
            have h6 := Rename_ok_quiet _ _ _ _ _ hren
            refine ⟨⟨h1, h2, h3, h4, h5, h6⟩, ?_⟩
            rw [h1, h2] at hopen
            obtain ⟨file0, fs0, hopen0, hread0, _⟩ :=
              OpenFile_ok fs (sourcePath faults.stat fs path)
            simp only [openFile] at hopen
            rw [hopen0] at hopen
            simp only [Prod.mk.injEq, Except.ok.injEq] at hopen
            obtain ⟨hf, hfs⟩ := hopen
            subst hf hfs
            simp only [sourceBytes]
            rw [← hread0]
            exact hrestore
/-! ## Reload -/

theorem encodeCommand_ne_nil {System Cmd B : Type} (codec : Codec System Cmd B)
    (hlaw : codec.Lawful) (command : Cmd) : codec.encodeCommand command ≠ [] := by
  intro h
  have h1 := hlaw.decodeCommand_encode command []
  rw [h, List.append_nil, hlaw.decodeCommand_nil] at h1
  simp at h1

theorem length_encodeAll {System Cmd B : Type} (codec : Codec System Cmd B)
    (hlaw : codec.Lawful) (commands : List Cmd) :
    commands.length ≤ (encodeAll codec commands).length := by
  induction commands with
  | nil => simp
  | cons command commands ih =>
    rw [encodeAll_cons, List.length_append, List.length_cons]
    have h := List.length_pos.mpr (encodeCommand_ne_nil codec hlaw command)
    omega

theorem decodesJournal_encodeAll {System Cmd B : Type} (codec : Codec System Cmd B)
    (hlaw : codec.Lawful) (commands : List Cmd) :
    decodesJournal codec (encodeAll codec commands) commands [] := by
  induction commands with
  | nil => simp [decodesJournal, encodeAll]
  | cons command commands ih =>
    rw [encodeAll_cons]
    exact ⟨_, hlaw.decodeCommand_encode command _, ih⟩

theorem restoreSystem_encoded {System Cmd B : Type} (codec : Codec System Cmd B)
    (hlaw : codec.Lawful) (ExecuteOn : Cmd → System → System × Option Error)
    (system : System) (commands : List Cmd) :
    restoreSystem codec ExecuteOn system
        (codec.encodeSystem system ++ encodeAll codec commands)
      = some (.ok (applyAll ExecuteOn system commands)) := by
  have hlen := length_encodeAll codec hlaw commands
  have hfuel : (encodeAll codec commands).length + 1
      = commands.length + ((encodeAll codec commands).length + 1 - commands.length) := by
    omega
  simp only [restoreSystem, hlaw.decodeSystem_encode]
  rw [hfuel, replay_journal codec ExecuteOn commands _ [] system _
    (decodesJournal_encodeAll codec hlaw commands)]
  exact replay_eof codec ExecuteOn _ _ [] (by omega) hlaw.decodeCommand_nil

theorem sourceBytes_fresh {B : Type} (fault : Option Error) (fs : FileSystem B)
    (path : String) (hpath : fs.names path = none)
    (htemp : fs.names (path ++ ".tmp") = none) : sourceBytes fault fs path = [] := by
  rcases sourcePath_cases fault fs path with h | h
  · simp [sourceBytes, FileSystem.content, h, hpath]
  · simp [sourceBytes, FileSystem.content, h, htemp]

theorem sourceBytes_primary {B : Type} (fs : FileSystem B) (path : String) (ino : Nat)
    (hpath : fs.names path = some ino) : sourceBytes none fs path = fs.data ino := by
  simp [sourceBytes, sourcePath, Stat, FileSystem.content, hpath]

/-- C1. After a `Load` that succeeds on a path with neither a primary nor a staging file,
followed by `Transact` calls whose appends all succeed, a second `Load` of the same path
with the same initial system, in which no call fails, succeeds with a handle whose system
is the commands applied in order to the initial system. That is the system the first
handle holds, so every query answers the same on both. -/
theorem replay_round_trip {System Cmd B : Type} [Inhabited B] (codec : Codec System Cmd B)
    (hlaw : codec.Lawful) (ExecuteOn : Cmd → System → System × Option Error)
    (faults : Faults) (fs fs1 : FileSystem B) (path : String) (initial : System)
    (p1 : Rambo System) (steps : List (Option Error × Cmd))
    (hpath : fs.names path = none) (htemp : fs.names (path ++ ".tmp") = none)
    (hload : Load codec ExecuteOn faults fs path initial
      = some { handle := some p1, err := none, fs := fs1 })
    (happend : ∀ step ∈ steps, step.1 = none) :
    ∃ p2 fs2,
      Load codec ExecuteOn Faults.none (transactAll codec ExecuteOn p1 fs1 steps).2.1 path
          initial
        = some { handle := some p2, err := none, fs := fs2 }
      ∧ p2.system = applyAll ExecuteOn initial (steps.map Prod.snd)
      ∧ p2.system = (transactAll codec ExecuteOn p1 fs1 steps).1.system
      ∧ ∀ (Q R : Type) (QueryOn : Q → System → System × R) (query : Q),
          (p2.Query QueryOn query).2
            = ((transactAll codec ExecuteOn p1 fs1 steps).1.Query QueryOn query).2 := by
  obtain ⟨hq, hrestore⟩ := Load_handle_quiet codec ExecuteOn faults fs path initial _ p1
    hload rfl
  have hsrc := sourceBytes_fresh faults.stat fs path hpath htemp
  have hinit : restoreSystem codec ExecuteOn initial (sourceBytes faults.stat fs path)
      = some (.ok initial) := by
    rw [hsrc]
    exact restoreSystem_snapshot_eof codec ExecuteOn initial [] (hlaw.decodeSystem_nil initial)
  obtain ⟨j, fs1a, hload1, hname, _, hdata⟩ :=
    Load_quiet codec ExecuteOn faults fs path initial initial hq hinit
  rw [hload] at hload1
  simp only [Option.some.injEq, Loaded.mk.injEq, true_and] at hload1
  obtain ⟨hp1, hfs1⟩ := hload1
  subst hp1 hfs1
  have hdata1 := hdata htemp
  obtain ⟨hsys, _, _, _, hnames, hfile⟩ := transactAll_ok codec ExecuteOn steps happend
    { system := initial,
      encoder := { w := { ino := j, off := (codec.encodeSystem initial).length } } }
    fs1
  have hfile1 := hfile (by simp only [hdata1])
  simp only at hfile1 hsys
  have hname2 : (transactAll codec ExecuteOn
      { system := initial,
        encoder := { w := { ino := j, off := (codec.encodeSystem initial).length } } }
      fs1 steps).2.1.names path = some j := by
    rw [hnames]
    exact hname
  have hreload : restoreSystem codec ExecuteOn initial
      (sourceBytes Faults.none.stat (transactAll codec ExecuteOn
        { system := initial,
          encoder := { w := { ino := j, off := (codec.encodeSystem initial).length } } }
        fs1 steps).2.1 path)
      = some (.ok (applyAll ExecuteOn initial (steps.map Prod.snd))) := by
    have hstat : Faults.none.stat = none := rfl
    rw [hstat, sourceBytes_primary _ path j hname2, hfile1, hdata1]
    exact restoreSystem_encoded codec hlaw ExecuteOn initial _
  obtain ⟨j2, fs2, hload2, _, _, _⟩ := Load_quiet codec ExecuteOn Faults.none _ path initial _
    ⟨rfl, rfl, rfl, rfl, rfl, rfl⟩ hreload
  refine ⟨_, fs2, hload2, rfl, ?_, ?_⟩
  · exact hsys.symm
  · intro Q R QueryOn query
    simp only [Rambo.Query]
    rw [hsys]

/-- Witness of C1, the two reload tests of the suite: on a path without files, `Add(1.23)`
reloads to total 1.23, and `Add(10)`, `Sub(5)`, `Mul(4)`, `Div(8)` reload to total 2.5. -/
theorem replay_round_trip_witness :
    emptyFS.names "db" = none ∧ emptyFS.names ("db" ++ ".tmp") = none
    ∧ (∃ p1 fs1 p2 fs2,
        Load calcCodec CalcCommand.ExecuteOn Faults.none emptyFS "db" { Total := 0 }
          = some { handle := some p1, err := none, fs := fs1 }
        ∧ Load calcCodec CalcCommand.ExecuteOn Faults.none
            (transactAll calcCodec CalcCommand.ExecuteOn p1 fs1 [(none, .Add 1.23)]).2.1 "db"
            { Total := 0 }
          = some { handle := some p2, err := none, fs := fs2 }
        ∧ p2.system = { Total := 1.23 })
    ∧ (∃ p1 fs1 p2 fs2,
        Load calcCodec CalcCommand.ExecuteOn Faults.none emptyFS "db" { Total := 0 }
          = some { handle := some p1, err := none, fs := fs1 }
        ∧ Load calcCodec CalcCommand.ExecuteOn Faults.none
            (transactAll calcCodec CalcCommand.ExecuteOn p1 fs1 testSteps).2.1 "db"
            { Total := 0 }
          = some { handle := some p2, err := none, fs := fs2 }
        ∧ p2.system = { Total := 2.5 }) := by
  obtain ⟨j, fs1, hload, _⟩ := Load_quiet calcCodec CalcCommand.ExecuteOn Faults.none emptyFS
    "db" { Total := 0 } { Total := 0 } ⟨rfl, rfl, rfl, rfl, rfl, rfl⟩ rfl
  obtain ⟨p2, fs2, h2, hsys, _⟩ := replay_round_trip calcCodec calcCodec_lawful
    CalcCommand.ExecuteOn Faults.none emptyFS fs1 "db" { Total := 0 } _ [(none, .Add 1.23)]
    rfl rfl hload (by with_unfolding_all decide)
  obtain ⟨p3, fs3, h3, hsys3, _⟩ := replay_round_trip calcCodec calcCodec_lawful
    CalcCommand.ExecuteOn Faults.none emptyFS fs1 "db" { Total := 0 } _ testSteps
    rfl rfl hload (by with_unfolding_all decide)
  exact ⟨rfl, rfl,
    ⟨_, fs1, p2, fs2, hload, h2, hsys.trans (by with_unfolding_all rfl)⟩,
    ⟨_, fs1, p3, fs3, hload, h3, hsys3.trans (by with_unfolding_all rfl)⟩⟩

/-! ## Crash continuation -/

theorem Load_restore_error {System Cmd B : Type} [Inhabited B] (codec : Codec System Cmd B)
    (ExecuteOn : Cmd → System → System × Option Error) (faults : Faults)
    (fs : FileSystem B) (path : String) (initial : System) (err : Error)
    (h1 : faults.mkdirSource = none) (h2 : faults.openSource = none)
    (hr : restoreSystem codec ExecuteOn initial (sourceBytes faults.stat fs path)
      = some (.error err)) :
    ∃ fs1, Load codec ExecuteOn faults fs path initial
      = some { handle := none, err := some err, fs := fs1 } := by
  obtain ⟨file, fs1, hopen, hread, _⟩ := OpenFile_ok fs (sourcePath faults.stat fs path)
  have hsrc : fs1.read file = sourceBytes faults.stat fs path := hread
  exact ⟨fs1, by simp [Load, openFile, h1, h2, hopen, hsrc, hr]⟩

/-- C5 as amended. When the primary file does not exist and the staging file does, `Load`
reads the staging file. If restoring from it succeeds and no call fails, `Load` returns a
handle holding the restored system, the primary file exists afterwards and the staging
path is gone; if restoring from it fails, `Load` returns that error and no handle.
Whenever the primary file exists, `Load` reads the primary file. -/
theorem crash_continuation {System Cmd B : Type} [Inhabited B] (codec : Codec System Cmd B)
    (ExecuteOn : Cmd → System → System × Option Error) (fs : FileSystem B) (path : String)
    (initial : System) (j : Nat) (hpath : fs.names path = none)
    (htemp : fs.names (path ++ ".tmp") = some j) :
    sourcePath none fs path = path ++ ".tmp"
    ∧ sourceBytes none fs path = fs.data j
    ∧ (∀ s, restoreSystem codec ExecuteOn initial (fs.data j) = some (.ok s) →
        ∃ p fs1, Load codec ExecuteOn Faults.none fs path initial
            = some { handle := some p, err := none, fs := fs1 }
          ∧ p.system = s ∧ (fs1.names path).isSome ∧ fs1.names (path ++ ".tmp") = none)
    ∧ (∀ err, restoreSystem codec ExecuteOn initial (fs.data j) = some (.error err) →
        ∃ fs1, Load codec ExecuteOn Faults.none fs path initial
            = some { handle := none, err := some err, fs := fs1 })
    ∧ (∀ (fs2 : FileSystem B) (i : Nat), fs2.names path = some i →
        sourcePath none fs2 path = path ∧ sourceBytes none fs2 path = fs2.data i) := by
  have hsp : sourcePath none fs path = path ++ ".tmp" := by
    simp [sourcePath, Stat, hpath]
  have hsb : sourceBytes none fs path = fs.data j := by
    simp [sourceBytes, hsp, FileSystem.content, htemp]
  have hstat : Faults.none.stat = none := rfl
  refine ⟨hsp, hsb, ?_, ?_, ?_⟩
  · intro s hr
    rw [← hsb, ← hstat] at hr
    obtain ⟨k, fs1, hload, hname, htmp, _⟩ := Load_quiet codec ExecuteOn Faults.none fs path
      initial s ⟨rfl, rfl, rfl, rfl, rfl, rfl⟩ hr
    exact ⟨_, fs1, hload, rfl, by simp [hname], htmp⟩
  · intro err hr
    rw [← hsb, ← hstat] at hr
    exact Load_restore_error codec ExecuteOn Faults.none fs path initial err rfl rfl hr
  · intro fs2 i hi
    exact ⟨by simp [sourcePath, Stat, hi], sourceBytes_primary fs2 path i hi⟩

/-- Witness of C5 as amended: only the staging file exists, holding the snapshot of total
5; `Load` restores total 5 from it and leaves the primary file in place. -/
theorem crash_continuation_witness :
    (mkFS [("db.tmp", [3, 0, 5, 1])]).names "db" = none
    ∧ (mkFS [("db.tmp", [3, 0, 5, 1])]).names ("db" ++ ".tmp") = some 0
    ∧ ∃ p fs1, Load calcCodec CalcCommand.ExecuteOn Faults.none
          (mkFS [("db.tmp", [3, 0, 5, 1])]) "db" { Total := 0 }
        = some { handle := some p, err := none, fs := fs1 }
      ∧ p.system = { Total := 5 } ∧ (fs1.names "db").isSome
      ∧ fs1.names ("db" ++ ".tmp") = none :=
  ⟨rfl, rfl,
    (crash_continuation calcCodec CalcCommand.ExecuteOn (mkFS [("db.tmp", [3, 0, 5, 1])]) "db"
      { Total := 0 } 0 rfl rfl).2.2.1 { Total := 5 } (by with_unfolding_all rfl)⟩

/-- Counterexample to C5 as stated: the primary file does not exist, the staging file
exists and holds a snapshot cut short by a crash during its write; `Load` reads the
staging file and fails. -/
theorem crash_continuation_counterexample :
    (mkFS [("db.tmp", [3, 0, 5])]).names "db" = none
    ∧ ((mkFS [("db.tmp", [3, 0, 5])]).names ("db" ++ ".tmp")).isSome = true
    ∧ sourcePath none (mkFS [("db.tmp", [3, 0, 5])]) "db" = "db.tmp"
    ∧ (Load calcCodec CalcCommand.ExecuteOn Faults.none (mkFS [("db.tmp", [3, 0, 5])]) "db"
          { Total := 0 }).map (observe "db")
        = some (none, some Error.ErrUnexpectedEOF, none) := by
  with_unfolding_all decide

/-! ## Compaction -/

/-- C4, the failing input. The staging file exists and is longer than the new snapshot:
`os.OpenFile` does not truncate it, so after a successful `Load` the primary file holds the
snapshot of total 0 followed by the last two words of the old staging file, the encoder
stands at offset 2 of 4, and the next `Load` of that file fails. The same file is what
the run `staleSession` ends with, starting from a path without files. -/
theorem compaction_keeps_stale_bytes :
    (Load calcCodec CalcCommand.ExecuteOn Faults.none staleFS "db" { Total := 0 }).map
        (observe "db")
      = some (some ({ Total := 0 }, 2), none, some [1, 0, 5, 1])
    ∧ staleSession.map (observe "db")
      = some (some ({ Total := 0 }, 2), none, some [1, 0, 5, 1])
    ∧ calcCodec.encodeSystem { Total := 0 } = [1, 0]
    ∧ ((Load calcCodec CalcCommand.ExecuteOn Faults.none staleFS "db" { Total := 0 }).bind
          (fun out => Load calcCodec CalcCommand.ExecuteOn Faults.none out.fs "db"
            { Total := 0 })).map (observe "db")
      = some (none, some Error.ErrUnexpectedEOF, some [1, 0, 5, 1]) := by
  refine ⟨?_, ?_, ?_, ?_⟩ <;> with_unfolding_all decide

/-! ## The initial system -/

theorem Load_empty_source {System Cmd B : Type} [Inhabited B] (codec : Codec System Cmd B)
    (ExecuteOn : Cmd → System → System × Option Error) (faults : Faults)
    (fs : FileSystem B) (path : String) (initial : System) (hq : faults.quiet)
    (hempty : sourceBytes faults.stat fs path = [])
    (heof : codec.decodeSystem initial [] = .error Error.EOF) :
    ∃ p fs1, Load codec ExecuteOn faults fs path initial
        = some { handle := some p, err := none, fs := fs1 }
      ∧ p.system = initial := by
  have hr : restoreSystem codec ExecuteOn initial (sourceBytes faults.stat fs path)
      = some (.ok initial) := by
    rw [hempty]
    exact restoreSystem_snapshot_eof codec ExecuteOn initial [] heof
  obtain ⟨j, fs1, hload, _⟩ := Load_quiet codec ExecuteOn faults fs path initial initial hq hr
  exact ⟨_, fs1, hload, rfl⟩

/-- C8, the failing input. The primary file holds the snapshot of total 0, in which gob
transmits no field. `Load` with an initial total of 5 returns total 5, `Load` with an
initial total of 0 returns total 0: the state depends on the initial system. So a system
started with total 100, brought to 0 by `Sub(100)` and reloaded (total 0, as it should),
comes back with total 100 on the next `Load`. -/
theorem Load_state_depends_on_initial :
    calcFS.content "db" = some (calcCodec.encodeSystem { Total := 0 })
    ∧ (Load calcCodec CalcCommand.ExecuteOn Faults.none calcFS "db" { Total := 5 }).map
        (observe "db")
      = some (some ({ Total := 5 }, 4), none, some [3, 0, 5, 1])
    ∧ (Load calcCodec CalcCommand.ExecuteOn Faults.none calcFS "db" { Total := 0 }).map
        (observe "db")
      = some (some ({ Total := 0 }, 2), none, some [1, 0])
    ∧ ((Load calcCodec CalcCommand.ExecuteOn Faults.none emptyFS "db" { Total := 100 }).bind
        (fun first => first.handle.bind (fun p1 =>
          (Load calcCodec CalcCommand.ExecuteOn Faults.none
            (p1.Transact calcCodec CalcCommand.ExecuteOn none first.fs (.Sub 100)).2.1 "db"
            { Total := 100 }).bind
          (fun second =>
            (Load calcCodec CalcCommand.ExecuteOn Faults.none second.fs "db"
              { Total := 100 }).map
            (fun third => (observe "db" second, observe "db" third))))))
      = some ((some ({ Total := 0 }, 2), none, some [1, 0]),
              (some ({ Total := 100 }, 4), none, some [3, 0, 100, 1])) := by
  refine ⟨?_, ?_, ?_, ?_⟩
  · with_unfolding_all decide
  · with_unfolding_all decide
  · with_unfolding_all decide
  · with_unfolding_all rfl

end GoRambo
